import Mathlib

/-!
Verification of `src/hooks/pre_code_generation.py` (antiHall pre-write
validation hook).  The Python module is shallowly embedded: the three regex
scans of `extract_code_patterns` become executable character-list scanners
with Python `re.findall` semantics (leftmost, non-overlapping matches, scan
restarting after each match), the subprocess-based checker
`validate_with_antihall` is parameterised by an explicit environment
(directory existence plus the outcome of one process launch), and the
dispatcher `main` becomes a pure function on an invocation-record structure.
Python's `\w` and `\s` character classes are modelled over ASCII, which
covers every literal the hook and its specification mention.
-/

namespace AntiHall

/-- ASCII model of the Python regex class `\w`: letters, digits, underscore. -/
def isWordChar (c : Char) : Bool := c.isAlphanum || c == '_'

/-- ASCII model of the Python regex class `\s` (also the characters removed
by `str.strip`): space, tab, newline, carriage return, vertical tab, form feed. -/
def isSpaceChar (c : Char) : Bool :=
  c == ' ' || c == '\t' || c == '\n' || c == '\r' || c == '\x0b' || c == '\x0c'

/-- Longest run of word characters at the front of the list, with the rest:
the greedy `\w+` (possibly empty, emptiness checked by callers). -/
def takeWord : List Char → List Char × List Char
  | [] => ([], [])
  | c :: s =>
    if isWordChar c then
      let (w, r) := takeWord s
      (c :: w, r)
    else ([], c :: s)

/-- Longest run of characters on which `p` is false, with the rest: the
greedy `[^X]+` (possibly empty, emptiness checked by callers). -/
def takeUntil (p : Char → Bool) : List Char → List Char × List Char
  | [] => ([], [])
  | c :: s =>
    if p c then ([], c :: s)
    else
      let (w, r) := takeUntil p s
      (c :: w, r)

/-- Match a literal character sequence at the front, returning the rest. -/
def stripLit : List Char → List Char → Option (List Char)
  | [], s => some s
  | _ :: _, [] => none
  | l :: ls, c :: s => if c == l then stripLit ls s else none

/-- One attempted match of `this\.(\w+Service)\.(\w+)\(` at the front of the
input.  Both captured groups are runs of word characters delimited by the
non-word characters `.` and `(`, so each group is forced to be the maximal
word run at its position; `\w+Service` means the first run ends in `Service`
and has at least one character before it.  On success, returns the two
groups and the input remaining after the match. -/
def tryService (s : List Char) : Option ((String × String) × List Char) :=
  match stripLit "this.".data s with
  | none => none
  | some s1 =>
    let (w, s2) := takeWord s1
    if w.length < 8 || !("Service".data.isSuffixOf w) then none
    else
      match s2 with
      | '.' :: s3 =>
        let (m, s4) := takeWord s3
        if m.isEmpty then none
        else
          match s4 with
          | '(' :: s5 => some ((w.asString, m.asString), s5)
          | _ => none
      | _ => none

/-- One attempted match of `import\s*{([^}]+)}\s*from\s*['\"]([^'\"]+)['\"]`
at the front of the input.  Returns the two groups (the raw brace list and
the quoted path) and the input remaining after the match. -/
def tryImport (s : List Char) : Option ((String × String) × List Char) :=
  match stripLit "import".data s with
  | none => none
  | some s1 =>
    match s1.dropWhile isSpaceChar with
    | '{' :: s3 =>
      let (inner, s4) := takeUntil (· == '}') s3
      if inner.isEmpty then none
      else
        match s4 with
        | '}' :: s5 =>
          match stripLit "from".data (s5.dropWhile isSpaceChar) with
          | none => none
          | some s7 =>
            match s7.dropWhile isSpaceChar with
            | q :: s9 =>
              if q == '\'' || q == '"' then
                let (path, s10) := takeUntil (fun c => c == '\'' || c == '"') s9
                if path.isEmpty then none
                else
                  match s10 with
                  | q2 :: s11 =>
                    if q2 == '\'' || q2 == '"' then some ((inner.asString, path.asString), s11)
                    else none
                  | [] => none
              else none
            | [] => none
        | _ => none
    | _ => none

/-- One attempted match of `@Component\({[^}]+}\)` (compiled with `DOTALL`,
which is inert here: the pattern has no `.`) at the front of the input.
Returns the full matched text and the input remaining after the match. -/
def tryComponent (s : List Char) : Option (String × List Char) :=
  match stripLit "@Component(\x7b".data s with
  | none => none
  | some s1 =>
    let (body, s2) := takeUntil (· == '}') s1
    if body.isEmpty then none
    else
      match s2 with
      | '}' :: ')' :: s3 =>
        some (("@Component(\x7b".data ++ body ++ "\x7d)".data).asString, s3)
      | _ => none

/-- Scan driver shared by the three `re.findall` calls.  The `Nat` argument
counts characters still to be skipped (the tail of the previous match): at
`0` a match of `tryAt` is attempted at the current position; on success the
result is emitted and scanning resumes right after the matched text, on
failure the scan advances one character.  All matchers consume at least one
character, so the computed skip count lands exactly at the remaining input
they return. -/
def scanGo (tryAt : List Char → Option (α × List Char)) : Nat → List Char → List α
  | _, [] => []
  | n + 1, _ :: s => scanGo tryAt n s
  | 0, c :: s =>
    match tryAt (c :: s) with
    | some (r, rest) => r :: scanGo tryAt (s.length - rest.length) s
    | none => scanGo tryAt 0 s

/-- All leftmost, non-overlapping matches of `tryAt` in the input, in order:
the semantics of Python `re.findall`. -/
def scanWith (tryAt : List Char → Option (α × List Char)) (s : List Char) : List α :=
  scanGo tryAt 0 s

/-- Models `re.findall(r'this\.(\w+Service)\.(\w+)\(', content)`. -/
def scanServiceCalls (content : String) : List (String × String) :=
  scanWith tryService content.data

/-- Models `re.findall(r"import\s*{([^}]+)}\s*from\s*['\"]([^'\"]+)['\"]", content)`. -/
def scanImports (content : String) : List (String × String) :=
  scanWith tryImport content.data

/-- Models `re.findall(r'@Component\({[^}]+}\)', content, re.DOTALL)`. -/
def scanComponents (content : String) : List String :=
  scanWith tryComponent content.data

/-- Models the Python substring test `needle in hay` on strings. -/
def containsSub (needle : List Char) : List Char → Bool
  | [] => needle.isPrefixOf []
  | c :: t => needle.isPrefixOf (c :: t) || containsSub needle t

/-- Models Python `str.split(',')`: cut at every comma, keeping empty
pieces (structural, so that extraction evaluates by kernel reduction). -/
def splitComma : List Char → List Char → List String
  | acc, [] => [acc.reverse.asString]
  | acc, c :: t =>
    if c == ',' then acc.reverse.asString :: splitComma [] t
    else splitComma (c :: acc) t

/-- Models Python `str.strip()`: drop leading and trailing whitespace. -/
def pyStrip (s : String) : String :=
  (((s.data.dropWhile isSpaceChar).reverse.dropWhile isSpaceChar).reverse).asString

/-- One discovered pattern instance: the dictionaries appended by
`extract_code_patterns`, tagged by their `'type'` key. -/
inductive Pattern where
  | service_method (service : String) (method : String) (full : String)
  | importPat (items : List String) (path : String)
  | componentPat (issue : String) (code : String)
  deriving DecidableEq, Repr

/-- Models `extract_code_patterns(content)`: the three independent scans, in
source order, their records concatenated (service calls, then imports, then
component decorators lacking `standalone: true`). -/
def extract_code_patterns (content : String) : List Pattern :=
  (scanServiceCalls content).map
    (fun p => Pattern.service_method p.1 p.2 ("this." ++ p.1 ++ "." ++ p.2 ++ "()"))
  ++ (scanImports content).map
    (fun p => Pattern.importPat ((splitComma [] p.1.data).map pyStrip) p.2)
  ++ (scanComponents content).filterMap
    (fun comp =>
      if containsSub "standalone: true".data comp.data then none
      else some (Pattern.componentPat "missing_standalone" ((comp.data.take 50).asString ++ "...")))

/-- One validation issue dictionary appended by `main`: keys `'type'`,
`'message'`, `'suggestion'` (all present in both issue kinds the hook builds). -/
structure Issue where
  type : String
  message : String
  suggestion : String
  deriving DecidableEq, Repr

/-- One sub-edit dictionary of a MultiEdit invocation; `main` reads only its
`'new_string'` key, absent keys defaulting to the empty string. -/
structure EditEntry where
  new_string : Option String := none
  deriving DecidableEq, Repr

/-- The `'params'` mapping of an invocation record, restricted to the keys
the hook reads; `none` models an absent key (Python `.get` with default). -/
structure Params where
  file_path : Option String := none
  content : Option String := none
  new_string : Option String := none
  edits : Option (List EditEntry) := none
  deriving DecidableEq, Repr

/-- The invocation record (`hook_data`): the `'tool_name'` and `'params'`
keys the hook reads, and the `'validation_warnings'` key it may write. -/
structure HookData where
  tool_name : Option String := none
  params : Option Params := none
  validation_warnings : Option (List Issue) := none
  deriving DecidableEq, Repr

/-- Environment of one `validate_with_antihall` call: whether the hard-coded
antiHall root directory exists, and what the single `subprocess.run` launch
would produce — `.ok (stdout, stderr)` for normal completion, `.error e` for
the text of the exception (timeout or any launch failure) the `except`
clause would catch. -/
structure CheckerEnv where
  dirExists : Bool
  run : String → Except String (String × String)

/-- Models `validate_with_antihall(code_snippet)`: `(None, "antiHall
directory not found")` when the tool root is missing, `(stdout, stderr)` on
normal completion, `(None, str(e))` when the launch raises. -/
def validate_with_antihall (env : CheckerEnv) (code_snippet : String) :
    Option String × String :=
  if !env.dirExists then (none, "antiHall directory not found")
  else
    match env.run code_snippet with
    | .ok (out, err) => (some out, err)
    | .error e => (none, e)

/-- Models Python `s.endswith(suffix)` for one suffix. -/
def endsWithSuffix (s suffix : String) : Bool :=
  suffix.data.isSuffixOf s.data

/-- Models Python `s.endswith(suffixes)` for a tuple of suffixes. -/
def endsWithAny (s : String) (suffixes : List String) : Bool :=
  suffixes.any (endsWithSuffix s)

/-- The `content` resolution of `main`: `params['content']` for Write,
`params['new_string']` for Edit, the newline-join of the sub-edits'
`new_string` fields for MultiEdit, and the initial `''` otherwise. -/
def resolve_content (tool_name : String) (params : Params) : String :=
  if tool_name == "Write" then params.content.getD ""
  else if tool_name == "Edit" then params.new_string.getD ""
  else if tool_name == "MultiEdit" then
    String.intercalate "\n" ((params.edits.getD []).map (fun e => e.new_string.getD ""))
  else ""

/-- The issue-aggregation loop of `main` over the extracted patterns.  For a
service-method pattern the checker is invoked on the pattern's `full` text,
and a hallucination issue is appended when the returned stdout is truthy and
contains `does not exist`; a component pattern whose issue is
`missing_standalone` appends a fixed pattern-violation issue; import
patterns generate nothing. -/
def collect_issues (checker : String → Option String × String)
    (patterns : List Pattern) : List Issue :=
  patterns.foldl
    (fun acc p =>
      match p with
      | .service_method service method full =>
        match (checker full).1 with
        | some out =>
          if !out.isEmpty && containsSub "does not exist".data out.data then
            acc ++ [{ type := "hallucination",
                      message := "Method '" ++ method ++ "' not found in " ++ service,
                      suggestion := "Check available methods with antiHall" }]
          else acc
        | none => acc
      | .componentPat issue _ =>
        if issue == "missing_standalone" then
          acc ++ [{ type := "pattern_violation",
                    message := "Component must use standalone: true",
                    suggestion := "All FibreFlow components must be standalone" }]
        else acc
      | .importPat _ _ => acc)
    []

/-- Models `main(hook_data)` with the external checker passed explicitly (in
the source `validate_with_antihall` is called directly; `main` below ties
the two together).  Gate order, key defaults and the final conditional
mutation of `validation_warnings` follow the source; the `print` calls are
a diagnostic side channel outside the returned record and are not modelled. -/
def mainWith (checker : String → Option String × String) (hook_data : HookData) : HookData :=
  let tool_name := hook_data.tool_name.getD ""
  if !(["Write", "Edit", "MultiEdit"].contains tool_name) then hook_data
  else
    let params := hook_data.params.getD {}
    let file_path := params.file_path.getD ""
    if !(endsWithAny file_path [".ts", ".component.ts", ".service.ts"]) then hook_data
    else
      let content := resolve_content tool_name params
      if content.isEmpty then hook_data
      else
        let validation_issues := collect_issues checker (extract_code_patterns content)
        if !validation_issues.isEmpty then
          { hook_data with validation_warnings := some validation_issues }
        else hook_data

/-- Models `main(hook_data)` as written: the checker is
`validate_with_antihall` in the environment `env`. -/
def main (env : CheckerEnv) (hook_data : HookData) : HookData :=
  mainWith (validate_with_antihall env) hook_data

/-- All three short-circuit gates of `main` in one test: recognized tool
name, recognized file suffix, non-empty resolved content (with the same
key defaults `main` uses). -/
def gates_pass (hook_data : HookData) : Bool :=
  ["Write", "Edit", "MultiEdit"].contains (hook_data.tool_name.getD "")
  && endsWithAny ((hook_data.params.getD {}).file_path.getD "")
       [".ts", ".component.ts", ".service.ts"]
  && !(resolve_content (hook_data.tool_name.getD "") (hook_data.params.getD {})).isEmpty

/-- The issue list `main` would collect: the aggregation loop's result when
every gate passes, and the empty list (no loop reached) otherwise. -/
def issues_of (checker : String → Option String × String) (hook_data : HookData) : List Issue :=
  if gates_pass hook_data then
    collect_issues checker
      (extract_code_patterns
        (resolve_content (hook_data.tool_name.getD "") (hook_data.params.getD {})))
  else []

/-- Structural prefix test on character lists, written so that it reduces
by kernel computation when the pattern is a literal and the text's tail is
abstract (used only to state and prove occurrence counting). -/
def litPrefix : List Char → List Char → Bool
  | [], _ => true
  | _ :: _, [] => false
  | a :: as, b :: bs => a == b && litPrefix as bs

/-- Number of start positions at which `needle` occurs in the text: the
occurrence count that a per-occurrence claim quantifies over (what Python's
`content.count(needle)` computes when occurrences cannot overlap, as is the
case for the fragments considered here). -/
def countOcc (needle : List Char) : List Char → Nat
  | [] => if litPrefix needle [] then 1 else 0
  | c :: t => countOcc needle t + (if litPrefix needle (c :: t) then 1 else 0)

/-! Helper lemmas about the scan driver, shared by several claims. -/

/-- A successful match at the current position emits its record and resumes
right after the matched text. -/
lemma scanGo_zero_cons_some {α : Type} {tryAt : List Char → Option (α × List Char)}
    {c : Char} {s : List Char} {r : α} {rest : List Char}
    (h : tryAt (c :: s) = some (r, rest)) :
    scanGo tryAt 0 (c :: s) = r :: scanGo tryAt (s.length - rest.length) s := by
  simp [scanGo, h]

/-- Skipping exactly the length of a prefix resumes the scan at the rest. -/
lemma scanGo_skip {α : Type} (tryAt : List Char → Option (α × List Char))
    (pre post : List Char) :
    scanGo tryAt pre.length (pre ++ post) = scanGo tryAt 0 post := by
  induction pre with
  | nil => rfl
  | cons c pre ih => simpa [scanGo] using ih

/-- A failed match at the current position advances the scan one character. -/
lemma scanGo_zero_cons_none {α : Type} {tryAt : List Char → Option (α × List Char)}
    {c : Char} {s : List Char} (h : tryAt (c :: s) = none) :
    scanGo tryAt 0 (c :: s) = scanGo tryAt 0 s := by
  simp [scanGo, h]

/-- The structural prefix test agrees with the prefix order. -/
lemma litPrefix_iff : ∀ (l₁ l₂ : List Char), litPrefix l₁ l₂ = true ↔ l₁ <+: l₂ := by
  intro l₁
  induction l₁ with
  | nil => intro l₂; simp [litPrefix]
  | cons a as ih =>
    intro l₂
    cases l₂ with
    | nil => simp [litPrefix]
    | cons b bs =>
      rw [litPrefix, List.cons_prefix_cons, Bool.and_eq_true, beq_iff_eq, ih]

/-- A successful literal match decomposes the input. -/
lemma stripLit_some : ∀ (lit s r : List Char), stripLit lit s = some r → s = lit ++ r := by
  intro lit
  induction lit with
  | nil => intro s r h; cases h; rfl
  | cons l ls ih =>
    intro s r h
    cases s with
    | nil => cases h
    | cons c s' =>
      rw [stripLit] at h
      by_cases hc : c == l
      · rw [if_pos hc] at h
        rw [List.cons_append, ← ih s' r h, eq_of_beq hc]
      · rw [if_neg hc] at h
        cases h

/-- `takeWord` splits the input into a run of word characters and the rest. -/
lemma takeWord_spec : ∀ (s w r : List Char), takeWord s = (w, r) →
    s = w ++ r ∧ ∀ c ∈ w, isWordChar c = true := by
  intro s
  induction s with
  | nil => intro w r h; cases h; exact ⟨rfl, by simp⟩
  | cons c t ih =>
    intro w r h
    rw [takeWord] at h
    by_cases hc : isWordChar c
    · rw [if_pos hc] at h
      rcases htw : takeWord t with ⟨w', r'⟩
      rw [htw] at h
      injection h with h1 h2
      subst h1
      subst h2
      obtain ⟨he, hall⟩ := ih w' r' htw
      constructor
      · rw [List.cons_append, ← he]
      · intro x hx
        rcases List.mem_cons.mp hx with hx | hx
        · rw [hx]; exact hc
        · exact hall x hx
    · rw [if_neg hc] at h
      cases h
      exact ⟨rfl, by simp⟩

/-- A successful service-call match decomposes its input into the literal
`this.`, the service group (a run of word characters), a dot, the method
group (a run of word characters), an opening parenthesis, and the rest. -/
lemma tryService_decomp {u : List Char} {sv m : String} {rest : List Char}
    (h : tryService u = some ((sv, m), rest)) :
    ∃ w mm : List Char,
      u = "this.".data ++ (w ++ '.' :: (mm ++ '(' :: rest)) ∧
      sv = w.asString ∧ m = mm.asString ∧
      (∀ c ∈ w, isWordChar c = true) ∧ (∀ c ∈ mm, isWordChar c = true) := by
  unfold tryService at h
  split at h
  · cases h
  · rename_i s1 hstrip
    split at h
    rename_i pair w s2 htw
    split at h
    · cases h
    · split at h
      · rename_i s3 hs2
        split at h
        rename_i pair2 mm s4 htm
        split at h
        · cases h
        · split at h
          · rename_i s5 hs4
            cases h
            obtain ⟨he1, hall1⟩ := takeWord_spec s1 w ('.' :: hs2) htw
            obtain ⟨he2, hall2⟩ := takeWord_spec hs2 mm ('(' :: rest) htm
            refine ⟨w, mm, ?_, rfl, rfl, hall1, hall2⟩
            rw [stripLit_some _ _ _ hstrip, he1, he2]
          · cases h
      · cases h

/-- At an occurrence of the fragment `this.fooService.bar(`, the service-call
matcher succeeds with exactly the groups of that occurrence and consumes
exactly the fragment, whatever follows. -/
lemma tryService_at_frag (tail : List Char) :
    tryService ("this.fooService.bar(".data ++ tail) =
      some ((("fooService" : String), ("bar" : String)), tail) := rfl

/-- The fragment occurs once at the head of `fragment ++ rest`, and at no
other position inside the fragment (its first character `t` never recurs). -/
lemma countOcc_frag_head (rest : List Char) :
    countOcc "this.fooService.bar(".data ("this.fooService.bar(".data ++ rest) =
      countOcc "this.fooService.bar(".data rest + 1 := rfl

/-- A position at which the needle does not occur contributes nothing. -/
lemma countOcc_cons_skip {needle : List Char} {c : Char} {t : List Char}
    (h : ¬ litPrefix needle (c :: t) = true) :
    countOcc needle (c :: t) = countOcc needle t := by
  rw [countOcc, if_neg h, Nat.add_zero]

/-- A block containing no occurrence start contributes nothing to the count. -/
lemma countOcc_append_skip (F : List Char) : ∀ (X rest : List Char),
    (∀ j, j < X.length → ¬ litPrefix F (X.drop j ++ rest) = true) →
    countOcc F (X ++ rest) = countOcc F rest := by
  intro X
  induction X with
  | nil => intro rest _; rfl
  | cons x X ih =>
    intro rest h
    rw [List.cons_append, countOcc_cons_skip (by
      have h0 := h 0 (Nat.zero_lt_succ _)
      simpa using h0)]
    exact ih rest (fun j hj => by
      have := h (j + 1) (by simpa using Nat.succ_lt_succ hj)
      simpa using this)

/-- Matching a concrete run of word characters followed by a dot against a
run of word characters followed by a dot forces the two runs to coincide
(a dot can never fall inside either run). -/
lemma wordRunPrefix : ∀ (wpat : List Char), (∀ c ∈ wpat, isWordChar c = true) →
    ∀ (ws : List Char), (∀ c ∈ ws, isWordChar c = true) →
    ∀ (prest tail : List Char),
    (wpat ++ '.' :: prest) <+: (ws ++ '.' :: tail) →
    ws = wpat ∧ prest <+: tail := by
  intro wpat
  induction wpat with
  | nil =>
    intro _ ws hws prest tail hp
    cases ws with
    | nil =>
      exact ⟨rfl, by simpa using hp⟩
    | cons b ws' =>
      exfalso
      rw [List.nil_append, List.cons_append] at hp
      have hb := (List.cons_prefix_cons.mp hp).1
      have := hws b (List.mem_cons_self b ws')
      rw [← hb] at this
      simp [isWordChar] at this
  | cons a wp ih =>
    intro hwpat ws hws prest tail hp
    cases ws with
    | nil =>
      exfalso
      rw [List.cons_append, List.nil_append] at hp
      have ha := (List.cons_prefix_cons.mp hp).1
      have := hwpat a (List.mem_cons_self a wp)
      rw [ha] at this
      simp [isWordChar] at this
    | cons b ws' =>
      rw [List.cons_append, List.cons_append] at hp
      obtain ⟨hab, hp'⟩ := List.cons_prefix_cons.mp hp
      obtain ⟨hws', hpt⟩ := ih (fun c hc => hwpat c (List.mem_cons_of_mem a hc))
        ws' (fun c hc => hws c (List.mem_cons_of_mem b hc)) prest tail hp'
      exact ⟨by rw [hws', hab], hpt⟩

/-- A parenthesis-free text followed by `(` matching into a parenthesis-free
text followed by `(` forces the two texts to coincide. -/
lemma parenAnchor : ∀ (A : List Char), (∀ c ∈ A, c ≠ '(') →
    ∀ (B : List Char), (∀ c ∈ B, c ≠ '(') → ∀ (tail : List Char),
    (A ++ ['(']) <+: (B ++ '(' :: tail) → A = B := by
  intro A
  induction A with
  | nil =>
    intro _ B hB tail hp
    cases B with
    | nil => rfl
    | cons b B' =>
      exfalso
      rw [List.nil_append, List.cons_append] at hp
      exact hB b (List.mem_cons_self b B') ((List.cons_prefix_cons.mp hp).1).symm
  | cons a A' ih =>
    intro hA B hB tail hp
    cases B with
    | nil =>
      exfalso
      rw [List.cons_append, List.nil_append] at hp
      exact hA a (List.mem_cons_self a A') (List.cons_prefix_cons.mp hp).1
    | cons b B' =>
      rw [List.cons_append, List.cons_append] at hp
      obtain ⟨hab, hp'⟩ := List.cons_prefix_cons.mp hp
      rw [ih (fun c hc => hA c (List.mem_cons_of_mem a hc))
        B' (fun c hc => hB c (List.mem_cons_of_mem b hc)) tail hp', hab]

/-- A word character is not a parenthesis. -/
lemma isWordChar_ne_paren {c : Char} (h : isWordChar c = true) : c ≠ '(' := by
  intro he
  subst he
  simp [isWordChar] at h

/-- The fragment `this.fooService.bar(` cannot start strictly inside a
service-call match `this.<w>.<mm>(`: its closing parenthesis would have to
land on the match's sole parenthesis, making the fragment a proper suffix of
the matched text, which the word-run structure rules out. -/
lemma no_mid_occurrence (w mm : List Char) (hw : ∀ c ∈ w, isWordChar c = true)
    (hmm : ∀ c ∈ mm, isWordChar c = true) (j : Nat) (hj1 : 1 ≤ j)
    (hj2 : j < ("this.".data ++ (w ++ '.' :: (mm ++ ['(']))).length) (rest : List Char) :
    ¬ litPrefix "this.fooService.bar(".data
        ((("this.".data ++ (w ++ '.' :: (mm ++ ['(']))).drop j) ++ rest) = true := by
  intro hpre
  have hXY : "this.".data ++ (w ++ '.' :: (mm ++ ['('])) =
      ("this.".data ++ (w ++ '.' :: mm)) ++ ['('] := by
    simp [List.append_assoc]
  have hjY : j ≤ ("this.".data ++ (w ++ '.' :: mm)).length := by
    rw [hXY] at hj2
    rw [List.length_append] at hj2
    simpa using Nat.lt_succ_iff.mp (by simpa using hj2)
  rw [hXY, List.drop_append_of_le_length hjY] at hpre
  rw [litPrefix_iff] at hpre
  have hpre' : ("this.fooService.bar".data ++ ['(']) <+:
      ((("this.".data ++ (w ++ '.' :: mm)).drop j) ++ '(' :: rest) := by
    have h1 : "this.fooService.bar(".data = "this.fooService.bar".data ++ ['('] := rfl
    rw [← h1]
    simpa [List.append_assoc] using hpre
  have hYparen : ∀ c ∈ "this.".data ++ (w ++ '.' :: mm), c ≠ '(' := by
    intro c hc
    rcases List.mem_append.mp hc with hc | hc
    · have hc' : c ∈ ['t', 'h', 'i', 's', '.'] := hc
      simp at hc'
      rcases hc' with rfl | rfl | rfl | rfl | rfl <;> decide
    · rcases List.mem_append.mp hc with hc | hc
      · exact isWordChar_ne_paren (hw c hc)
      · rcases List.mem_cons.mp hc with hc | hc
        · subst hc; decide
        · exact isWordChar_ne_paren (hmm c hc)
  have hA : ∀ c ∈ "this.fooService.bar".data, c ≠ '(' := by decide
  have hFY : "this.fooService.bar".data = ("this.".data ++ (w ++ '.' :: mm)).drop j :=
    parenAnchor _ hA _ (fun c hc => hYparen c (List.drop_subset _ _ hc)) rest hpre'
  have hlen : ("this.fooService.bar".data).length =
      ("this.".data ++ (w ++ '.' :: mm)).length - j := by
    rw [hFY, List.length_drop]
  have hsuf : "this.".data ++ (w ++ '.' :: mm) =
      ("this.".data ++ (w ++ '.' :: mm)).take j ++ "this.fooService.bar".data := by
    rw [hFY]
    exact (List.take_append_drop j _).symm
  have hrev : ("this.fooService.bar".data).reverse <+:
      ("this.".data ++ (w ++ '.' :: mm)).reverse :=
    ⟨(("this.".data ++ (w ++ '.' :: mm)).take j).reverse, by
      conv_rhs => rw [hsuf]
      rw [List.reverse_append]⟩
  have hYrev : ("this.".data ++ (w ++ '.' :: mm)).reverse =
      mm.reverse ++ '.' :: (w.reverse ++ '.' :: "siht".data) := by
    simp [List.reverse_append, List.reverse_cons, List.append_assoc]
  have hFrev : ("this.fooService.bar".data).reverse =
      "rab".data ++ '.' :: ("ecivreSoof".data ++ '.' :: "siht".data) := by decide
  rw [hYrev, hFrev] at hrev
  obtain ⟨hmm', hrev2⟩ := wordRunPrefix "rab".data (by decide) mm.reverse
    (fun c hc => hmm c (List.mem_reverse.mp hc)) _ _ hrev
  obtain ⟨hw', -⟩ := wordRunPrefix "ecivreSoof".data (by decide) w.reverse
    (fun c hc => hw c (List.mem_reverse.mp hc)) _ _ hrev2
  have hmm2 : mm = "bar".data := by
    have h2 := congrArg List.reverse hmm'
    simpa using h2
  have hw2 : w = "fooService".data := by
    have h2 := congrArg List.reverse hw'
    simpa using h2
  rw [hmm2, hw2] at hlen
  rw [show (("this.".data ++ ("fooService".data ++ '.' :: "bar".data)).length) = 19 from by
    decide] at hlen
  rw [show (("this.fooService.bar".data).length) = 19 from by decide] at hlen
  omega

/-- The service-call scan finds the groups `(fooService, bar)` exactly once
per occurrence of the fragment `this.fooService.bar(`: an occurrence at the
scan position is matched as-is, a failed position cannot hide an occurrence,
and a different match cannot contain an occurrence strictly inside itself. -/
lemma scanGo_service_count : ∀ (n : Nat) (s : List Char), s.length ≤ n →
    ((scanGo tryService 0 s).filter
        (fun r => r = (("fooService" : String), ("bar" : String)))).length =
      countOcc "this.fooService.bar(".data s := by
  intro n
  induction n with
  | zero =>
    intro s hs
    cases s with
    | nil => rfl
    | cons c t => simp at hs
  | succ n ih =>
    intro s hs
    cases s with
    | nil => rfl
    | cons c t =>
      cases htr : tryService (c :: t) with
      | none =>
        rw [scanGo_zero_cons_none htr, countOcc_cons_skip (fun hp => by
          rw [litPrefix_iff] at hp
          obtain ⟨tail, htail⟩ := hp
          rw [← htail, tryService_at_frag] at htr
          cases htr)]
        exact ih t (Nat.le_of_succ_le_succ hs)
      | some rr =>
        obtain ⟨⟨sv, m⟩, rest⟩ := rr
        obtain ⟨w, mm, hu, hsv, hm, hw, hmm⟩ := tryService_decomp htr
        have hu' : c :: t = 't' :: (("his.".data ++ (w ++ '.' :: (mm ++ ['(']))) ++ rest) := by
          rw [hu]
          simp [List.append_assoc]
        injection hu' with hc ht
        have hrest_le : rest.length ≤ n := by
          have h1 := congrArg List.length ht
          rw [List.length_append] at h1
          have h2 : t.length ≤ n := Nat.le_of_succ_le_succ (by simpa using hs)
          omega
        rw [scanGo_zero_cons_some htr]
        rw [show t.length - rest.length = (("his.".data ++ (w ++ '.' :: (mm ++ ['(']))).length) from by
          rw [ht, List.length_append, Nat.add_sub_cancel]]
        rw [show scanGo tryService (("his.".data ++ (w ++ '.' :: (mm ++ ['(']))).length) t =
            scanGo tryService 0 rest from by
          conv_lhs => rw [ht]
          exact scanGo_skip tryService _ rest]
        by_cases hsvm : ((sv, m) : String × String) = ("fooService", "bar")
        · have hwv : w = "fooService".data := by
            have h1 : w.asString = "fooService" := by
              rw [← hsv]
              exact congrArg Prod.fst hsvm
            have h2 := congrArg String.data h1
            simpa using h2
          have hmmv : mm = "bar".data := by
            have h1 : mm.asString = "bar" := by
              rw [← hm]
              exact congrArg Prod.snd hsvm
            have h2 := congrArg String.data h1
            simpa using h2
          rw [List.filter_cons, if_pos (by simp [hsvm]), List.length_cons]
          rw [ih rest hrest_le]
          have hfrag : c :: t = "this.fooService.bar(".data ++ rest := by
            rw [hu, hwv, hmmv]
            simp [List.append_assoc]
          rw [hfrag, countOcc_frag_head]
        · rw [List.filter_cons, if_neg (by simp [hsvm])]
          rw [ih rest hrest_le]
          have hct : c :: t = ("this.".data ++ (w ++ '.' :: (mm ++ ['(']))) ++ rest := by
            rw [hu]
            simp [List.append_assoc]
          rw [hct, countOcc_append_skip _ _ _ (fun j hj hp => by
            cases j with
            | zero =>
              rw [List.drop_zero, litPrefix_iff] at hp
              obtain ⟨tail, htail⟩ := hp
              have h1 : tryService (("this.".data ++ (w ++ '.' :: (mm ++ ['(']))) ++ rest) =
                  some ((sv, m), rest) := by
                rw [← hct]
                exact htr
              rw [← htail, tryService_at_frag] at h1
              injection h1 with h2
              injection h2 with h3 h4
              exact hsvm h3.symm
            | succ j' =>
              exact no_mid_occurrence w mm hw hmm (j' + 1)
                (Nat.succ_le_succ (Nat.zero_le _)) hj rest hp)]

/-- Service-call records of the extraction correspond one-to-one to the
scanned group pairs, preserving the count of `(fooService, bar)` hits. -/
lemma servicePart_count (l : List (String × String)) :
    ((l.map (fun p => Pattern.service_method p.1 p.2 ("this." ++ p.1 ++ "." ++ p.2 ++ "()"))).filter
        (fun q => q = Pattern.service_method "fooService" "bar" "this.fooService.bar()")).length =
      (l.filter (fun r => r = (("fooService" : String), ("bar" : String)))).length := by
  induction l with
  | nil => rfl
  | cons a l ih =>
    rcases a with ⟨x, y⟩
    by_cases h : x = "fooService" ∧ y = "bar"
    · rcases h with ⟨rfl, rfl⟩
      rw [List.map_cons, List.filter_cons, List.filter_cons,
        if_pos (by decide), if_pos (by decide)]
      simp [ih]
    · have hne1 : ¬(Pattern.service_method x y ("this." ++ x ++ "." ++ y ++ "()") =
          Pattern.service_method "fooService" "bar" "this.fooService.bar()") := by
        intro hcon
        injection hcon with h1 h2 h3
        exact h ⟨h1, h2⟩
      have hne2 : ¬(((x, y) : String × String) = ("fooService", "bar")) := by
        intro hcon
        injection hcon with h1 h2
        exact h ⟨h1, h2⟩
      rw [List.map_cons, List.filter_cons, List.filter_cons,
        if_neg (by simpa using hne1), if_neg (by simpa using hne2)]
      exact ih

/-- Import records never equal a service-call record. -/
lemma importPart_count (l : List (String × String)) :
    (l.map (fun p => Pattern.importPat ((splitComma [] p.1.data).map pyStrip) p.2)).filter
        (fun q => q = Pattern.service_method "fooService" "bar" "this.fooService.bar()") = [] := by
  induction l with
  | nil => rfl
  | cons a l ih => simp [List.filter_cons, ih]

/-- Component records never equal a service-call record. -/
lemma componentPart_count (l : List String) :
    ((l.filterMap
        (fun comp =>
          if containsSub "standalone: true".data comp.data then none
          else some (Pattern.componentPat "missing_standalone"
            ((comp.data.take 50).asString ++ "...")))).filter
        (fun q => q = Pattern.service_method "fooService" "bar" "this.fooService.bar()")) = [] := by
  induction l with
  | nil => rfl
  | cons a l ih =>
    rw [List.filterMap_cons]
    by_cases h : containsSub "standalone: true".data a.data
    · rw [if_pos h]
      exact ih
    · rw [if_neg h]
      simp [List.filter_cons, ih]

/-- The Extractor emits exactly one `⟨fooService, bar, this.fooService.bar()⟩`
record per occurrence of the fragment `this.fooService.bar(` in the content,
for every content. -/
lemma extract_service_count (content : String) :
    ((extract_code_patterns content).filter
        (fun q => q = Pattern.service_method "fooService" "bar" "this.fooService.bar()")).length =
      countOcc "this.fooService.bar(".data content.data := by
  rw [extract_code_patterns, List.filter_append, List.filter_append,
    importPart_count, componentPart_count, List.append_nil, List.append_nil,
    servicePart_count]
  exact scanGo_service_count content.data.length content.data (Nat.le_refl _)

/-- The service-call scan on content starting with the fragment
`this.fooService.bar(`: one match for the fragment, then the matches of the
rest. -/
lemma scanGo_service_frag (post : List Char) :
    scanGo tryService 0 ("this.fooService.bar(".data ++ post) =
      ("fooService", "bar") :: scanGo tryService 0 post := by
  rw [show ("this.fooService.bar(").data = 't' :: ("his.fooService.bar(").data from rfl,
    List.cons_append]
  rw [scanGo_zero_cons_some
    (show tryService ('t' :: (("his.fooService.bar(").data ++ post)) =
      some (("fooService", "bar"), post) from rfl)]
  rw [List.length_append, Nat.add_sub_cancel, scanGo_skip]

/-- The import scan on content starting with the line
`import { A, B } from 'x/y'`: one match for the line (raw group ` A, B `),
then the matches of the rest. -/
lemma scanGo_import_line (post : List Char) :
    scanGo tryImport 0 ("import \x7b A, B \x7d from 'x/y'".data ++ post) =
      (" A, B ", "x/y") :: scanGo tryImport 0 post := by
  rw [show ("import \x7b A, B \x7d from 'x/y'").data =
      'i' :: ("mport \x7b A, B \x7d from 'x/y'").data from rfl, List.cons_append]
  rw [scanGo_zero_cons_some
    (show tryImport ('i' :: (("mport \x7b A, B \x7d from 'x/y'").data ++ post)) =
      some ((" A, B ", "x/y"), post) from rfl)]
  rw [List.length_append, Nat.add_sub_cancel, scanGo_skip]

/-- C1 counterexample: on content consisting exactly of the fragment
`this.fooService.bar(`, the single emitted record's `full` field is
`this.fooService.bar()` — the source appends a closing parenthesis — and not
the matched text `this.fooService.bar(` the claim states. -/
theorem C1_full_field_counterexample :
    extract_code_patterns "this.fooService.bar(" =
      [Pattern.service_method "fooService" "bar" "this.fooService.bar()"] ∧
    ¬ ("this.fooService.bar()" = "this.fooService.bar(") := by
  exact ⟨rfl, by decide⟩

/-- C1 amended: for every content containing the fragment
`this.fooService.bar(`, the Extractor yields exactly one service-call record
for each occurrence of the fragment (the number of
`⟨fooService, bar, this.fooService.bar()⟩` records equals the number of
occurrences), with service `fooService`, method `bar`, and
`full = "this.fooService.bar()"` — the matched text with a closing
parenthesis appended, which is the one correction to the claim; every
emitted service-call record's `full` field equals
`this.` ++ service ++ `.` ++ method ++ `()`, content beginning with the
fragment scans to that occurrence's match followed by the matches of the
rest, the fragment alone extracts to exactly the one record, and the Checker
is consulted exactly on the record's `full` text (two checkers agreeing
there produce the same issues). -/
theorem C1_service_call_records (post : String) :
    (∀ (content service method full : String),
        Pattern.service_method service method full ∈ extract_code_patterns content →
        full = "this." ++ service ++ "." ++ method ++ "()") ∧
    (∀ content : String,
        ((extract_code_patterns content).filter
            (fun q => q = Pattern.service_method "fooService" "bar" "this.fooService.bar()")).length =
          countOcc "this.fooService.bar(".data content.data) ∧
    scanServiceCalls ("this.fooService.bar(" ++ post) =
      ("fooService", "bar") :: scanServiceCalls post ∧
    extract_code_patterns "this.fooService.bar(" =
      [Pattern.service_method "fooService" "bar" "this.fooService.bar()"] ∧
    (∀ (ch₁ ch₂ : String → Option String × String) (s m f : String),
        ch₁ f = ch₂ f →
        collect_issues ch₁ [Pattern.service_method s m f] =
          collect_issues ch₂ [Pattern.service_method s m f]) := by
  refine ⟨fun content s m f hmem => ?_, fun content => extract_service_count content, ?_,
    rfl, fun ch₁ ch₂ s m f hf => ?_⟩
  · rw [extract_code_patterns] at hmem
    rcases List.mem_append.mp hmem with h | h
    · rcases List.mem_append.mp h with h | h
      · obtain ⟨p, hp, heq⟩ := List.mem_map.mp h
        cases heq
        rfl
      · obtain ⟨p, hp, heq⟩ := List.mem_map.mp h
        cases heq
    · obtain ⟨b, hb, heq⟩ := List.mem_filterMap.mp h
      by_cases hc : containsSub "standalone: true".data b.data
      · rw [if_pos hc] at heq
        cases heq
      · rw [if_neg hc] at heq
        cases heq
  · show scanGo tryService 0 ("this.fooService.bar(" ++ post).data =
      ("fooService", "bar") :: scanGo tryService 0 post.data
    rw [String.data_append]
    exact scanGo_service_frag post.data
  · simp [collect_issues, hf]

/-- C1 amended witness: the general `full` shape instantiated at the one
record extracted from the fragment itself. -/
theorem C1_service_call_records_witness :
    "this.fooService.bar()" = "this." ++ "fooService" ++ "." ++ "bar" ++ "()" :=
  (C1_service_call_records "").1 "this.fooService.bar(" "fooService" "bar"
    "this.fooService.bar()" (by decide)

/-- C8 counterexample: the content
`import { X, import { A, B } from 'x/y'` contains the import line
`import { A, B } from 'x/y'` as a substring, yet the Extractor's only import
record is the earlier overlapping match with items
`["X", "import { A", "B"]` — no record with items `["A", "B"]` is emitted. -/
theorem C8_import_line_counterexample :
    containsSub ("import \x7b A, B \x7d from 'x/y'").data
      ("import \x7b X, import \x7b A, B \x7d from 'x/y'").data = true ∧
    extract_code_patterns "import \x7b X, import \x7b A, B \x7d from 'x/y'" =
      [Pattern.importPat ["X", "import \x7b A", "B"] "x/y"] := by
  exact ⟨by decide, rfl⟩

/-- C8 amended: content beginning with the line `import { A, B } from 'x/y'`
yields the import match for that line first (raw brace list ` A, B `, path
`x/y`), followed by the matches of the remaining text; every emitted import
record's items are the comma-split, whitespace-trimmed pieces of its match's
raw brace list (order preserved, duplicates kept) with the match's path; and
the line alone extracts to exactly the record with items `["A", "B"]` and
path `x/y`.  (For content merely containing the line an earlier overlapping
match can consume it, as the counterexample shows.) -/
theorem C8_import_records (post : String) :
    (∀ (content : String) (items : List String) (path : String),
        Pattern.importPat items path ∈ extract_code_patterns content →
        ∃ inner, (inner, path) ∈ scanImports content ∧
          items = (splitComma [] inner.data).map pyStrip) ∧
    scanImports ("import \x7b A, B \x7d from 'x/y'" ++ post) =
      (" A, B ", "x/y") :: scanImports post ∧
    extract_code_patterns "import \x7b A, B \x7d from 'x/y'" =
      [Pattern.importPat ["A", "B"] "x/y"] := by
  refine ⟨fun content items path hmem => ?_, ?_, rfl⟩
  · rw [extract_code_patterns] at hmem
    rcases List.mem_append.mp hmem with h | h
    · rcases List.mem_append.mp h with h | h
      · obtain ⟨p, hp, heq⟩ := List.mem_map.mp h
        cases heq
      · obtain ⟨p, hp, heq⟩ := List.mem_map.mp h
        cases heq
        exact ⟨p.1, by simpa using hp, rfl⟩
    · obtain ⟨b, hb, heq⟩ := List.mem_filterMap.mp h
      by_cases hc : containsSub "standalone: true".data b.data
      · rw [if_pos hc] at heq
        cases heq
      · rw [if_neg hc] at heq
        cases heq
  · show scanGo tryImport 0 ("import \x7b A, B \x7d from 'x/y'" ++ post).data =
      (" A, B ", "x/y") :: scanGo tryImport 0 post.data
    rw [String.data_append]
    exact scanGo_import_line post.data

/-- C8 amended witness: the items/path characterisation instantiated at the
record the line itself extracts to. -/
theorem C8_import_records_witness :
    ∃ inner, (inner, "x/y") ∈ scanImports "import \x7b A, B \x7d from 'x/y'" ∧
      ["A", "B"] = (splitComma [] inner.data).map pyStrip :=
  (C8_import_records "").1 "import \x7b A, B \x7d from 'x/y'" ["A", "B"] "x/y"
    (by decide)

/-- Component part of the extraction: a filter of the scanned blocks on the
absence of `standalone: true`, mapped to the truncated preview. -/
lemma componentPart_filterMap (l : List String) :
    (l.filterMap
        (fun comp =>
          if containsSub "standalone: true".data comp.data then none
          else some (Pattern.componentPat "missing_standalone"
            ((comp.data.take 50).asString ++ "...")))).filterMap
      (fun p => match p with
        | Pattern.componentPat issue code => some (issue, code)
        | _ => none) =
    (l.filter (fun comp => !(containsSub "standalone: true".data comp.data))).map
      (fun comp => ("missing_standalone", (comp.data.take 50).asString ++ "...")) := by
  induction l with
  | nil => rfl
  | cons a l ih =>
    by_cases h : containsSub "standalone: true".data a.data <;>
      simp [h, ih, List.filterMap_cons, List.filter_cons]

/-- Service-call records contribute nothing to the component projection. -/
lemma servicePart_filterMap (l : List (String × String)) :
    (l.map (fun p => Pattern.service_method p.1 p.2 ("this." ++ p.1 ++ "." ++ p.2 ++ "()"))).filterMap
      (fun p => match p with
        | Pattern.componentPat issue code => some (issue, code)
        | _ => none) = [] := by
  induction l with
  | nil => rfl
  | cons a l ih => simp [ih]

/-- Import records contribute nothing to the component projection. -/
lemma importPart_filterMap (l : List (String × String)) :
    (l.map (fun p => Pattern.importPat ((splitComma [] p.1.data).map pyStrip) p.2)).filterMap
      (fun p => match p with
        | Pattern.componentPat issue code => some (issue, code)
        | _ => none) = [] := by
  induction l with
  | nil => rfl
  | cons a l ih => simp [ih]

/-- C2: the component records of the Extractor are exactly one
missing-standalone record per scanned component-decorator block in which the
exact substring `standalone: true` is absent, in scan order, each carrying
the first 50 characters of the block plus an ellipsis marker; blocks
containing the substring contribute nothing.  Concretely,
`@Component({selector: 'x'})` yields exactly its one record. -/
theorem C2_missing_standalone_records (content : String) :
    (extract_code_patterns content).filterMap
        (fun p => match p with
          | Pattern.componentPat issue code => some (issue, code)
          | _ => none) =
      ((scanComponents content).filter
          (fun comp => !(containsSub "standalone: true".data comp.data))).map
        (fun comp => ("missing_standalone", (comp.data.take 50).asString ++ "...")) ∧
    extract_code_patterns "@Component(\x7bselector: 'x'\x7d)" =
      [Pattern.componentPat "missing_standalone" "@Component(\x7bselector: 'x'\x7d)..."] := by
  constructor
  · rw [extract_code_patterns, List.filterMap_append, List.filterMap_append,
      componentPart_filterMap, servicePart_filterMap, importPart_filterMap]
    rfl
  · rfl

/-- C3: dispatching a Write of `this.authService.loginWithMagicLink()` to
`test.service.ts`, with the Checker mocked to return a stdout containing
`Method loginWithMagicLink does not exist`, returns the input record with
`validation_warnings` set to exactly the one hallucination issue
`Method 'loginWithMagicLink' not found in authService` and its fixed
suggestion. -/
theorem C3_write_hallucination_warning :
    mainWith (fun _ => (some "Method loginWithMagicLink does not exist", ""))
      { tool_name := some "Write",
        params := some { file_path := some "test.service.ts",
                         content := some "this.authService.loginWithMagicLink()" } } =
    { tool_name := some "Write",
      params := some { file_path := some "test.service.ts",
                       content := some "this.authService.loginWithMagicLink()" },
      validation_warnings := some
        [{ type := "hallucination",
           message := "Method 'loginWithMagicLink' not found in authService",
           suggestion := "Check available methods with antiHall" }] } := by
  rfl

/-- C4: the Checker is a total function of its environment: when the
antiHall root directory is missing it returns `(none, "antiHall directory
not found")` and its result does not depend on the process launch at all;
when the directory exists, a launch failure or timeout described by `e`
yields `(none, e)`, and normal completion yields the captured stdout and
stderr. -/
theorem C4_checker_never_raises (env : CheckerEnv) (s : String) :
    (env.dirExists = false →
      validate_with_antihall env s = (none, "antiHall directory not found") ∧
      ∀ run', validate_with_antihall { env with run := run' } s =
        validate_with_antihall env s) ∧
    (env.dirExists = true → ∀ e, env.run s = Except.error e →
      validate_with_antihall env s = (none, e)) ∧
    (env.dirExists = true → ∀ o r, env.run s = Except.ok (o, r) →
      validate_with_antihall env s = (some o, r)) := by
  refine ⟨fun h => ⟨?_, fun run' => ?_⟩, fun h e he => ?_, fun h o r ho => ?_⟩ <;>
    simp [validate_with_antihall, h]
  · rw [he]
  · rw [ho]

/-- C4 witness: the three outcomes at concrete environments. -/
theorem C4_checker_never_raises_witness :
    validate_with_antihall ⟨false, fun _ => Except.ok ("a", "b")⟩ "x" =
      (none, "antiHall directory not found") ∧
    validate_with_antihall ⟨true, fun _ => Except.error "timed out after 10s"⟩ "x" =
      (none, "timed out after 10s") ∧
    validate_with_antihall ⟨true, fun _ => Except.ok ("out", "err")⟩ "x" =
      (some "out", "err") :=
  ⟨((C4_checker_never_raises ⟨false, fun _ => Except.ok ("a", "b")⟩ "x").1 rfl).1,
   (C4_checker_never_raises ⟨true, fun _ => Except.error "timed out after 10s"⟩ "x").2.1
     rfl "timed out after 10s" rfl,
   (C4_checker_never_raises ⟨true, fun _ => Except.ok ("out", "err")⟩ "x").2.2
     rfl "out" "err" rfl⟩

/-- C5: `main` returns the input record unchanged whenever any gate fails:
unrecognized tool name, file path without a recognized suffix, empty
resolved content; and a missing `params` or `tool_name` key defaults to
empty/falsy, so the corresponding gate short-circuits to the same result. -/
theorem C5_gate_failures_unchanged (checker : String → Option String × String)
    (hd : HookData) :
    ((["Write", "Edit", "MultiEdit"].contains (hd.tool_name.getD "")) = false →
      mainWith checker hd = hd) ∧
    (endsWithAny ((hd.params.getD {}).file_path.getD "")
        [".ts", ".component.ts", ".service.ts"] = false →
      mainWith checker hd = hd) ∧
    ((resolve_content (hd.tool_name.getD "") (hd.params.getD {})).isEmpty = true →
      mainWith checker hd = hd) ∧
    (hd.params = none → mainWith checker hd = hd) ∧
    (hd.tool_name = none → mainWith checker hd = hd) := by
  have g1 : (["Write", "Edit", "MultiEdit"].contains (hd.tool_name.getD "")) = false →
      mainWith checker hd = hd := by
    intro h; simp only [mainWith]; rw [h]; simp
  have g2 : endsWithAny ((hd.params.getD {}).file_path.getD "")
      [".ts", ".component.ts", ".service.ts"] = false → mainWith checker hd = hd := by
    intro h; simp only [mainWith]; rw [h]; simp
  have g3 : (resolve_content (hd.tool_name.getD "") (hd.params.getD {})).isEmpty = true →
      mainWith checker hd = hd := by
    intro h; simp only [mainWith]; rw [h]; simp
  exact ⟨g1, g2, g3, fun h4 => g2 (by rw [h4]; rfl), fun h5 => g1 (by rw [h5]; rfl)⟩

/-- C5 witness: the gates at concrete records — unrecognized tool name,
non-matching suffix `foo.txt`, empty content, missing `params`, missing
`tool_name`. -/
theorem C5_gate_failures_unchanged_witness :
    mainWith (fun _ => (none, "")) { tool_name := some "Read" } =
      { tool_name := some "Read" } ∧
    mainWith (fun _ => (none, ""))
      { tool_name := some "Write",
        params := some { file_path := some "foo.txt", content := some "this.aService.b(" } } =
      { tool_name := some "Write",
        params := some { file_path := some "foo.txt", content := some "this.aService.b(" } } ∧
    mainWith (fun _ => (none, ""))
      { tool_name := some "Write",
        params := some { file_path := some "a.ts", content := some "" } } =
      { tool_name := some "Write",
        params := some { file_path := some "a.ts", content := some "" } } ∧
    mainWith (fun _ => (none, "")) { tool_name := some "Write" } =
      { tool_name := some "Write" } ∧
    mainWith (fun _ => (none, "")) {} = ({} : HookData) :=
  ⟨(C5_gate_failures_unchanged (fun _ => (none, "")) { tool_name := some "Read" }).1 rfl,
   (C5_gate_failures_unchanged (fun _ => (none, ""))
      { tool_name := some "Write",
        params := some { file_path := some "foo.txt",
                         content := some "this.aService.b(" } }).2.1 rfl,
   (C5_gate_failures_unchanged (fun _ => (none, ""))
      { tool_name := some "Write",
        params := some { file_path := some "a.ts", content := some "" } }).2.2.1 rfl,
   (C5_gate_failures_unchanged (fun _ => (none, ""))
      { tool_name := some "Write" }).2.2.2.1 rfl,
   (C5_gate_failures_unchanged (fun _ => (none, "")) {}).2.2.2.2 rfl⟩

/-- C6: `main` changes at most the top-level `validation_warnings` field:
`tool_name` and the entire `params` mapping are returned unchanged, and
`validation_warnings` is overwritten with the collected issue list exactly
when that list is non-empty (otherwise the record, including any prior
`validation_warnings` value, is returned untouched). -/
theorem C6_frame_validation_warnings (checker : String → Option String × String)
    (hd : HookData) :
    (mainWith checker hd).tool_name = hd.tool_name ∧
    (mainWith checker hd).params = hd.params ∧
    (mainWith checker hd).validation_warnings =
      (if issues_of checker hd = [] then hd.validation_warnings
       else some (issues_of checker hd)) := by
  by_cases h1 : (["Write", "Edit", "MultiEdit"].contains (hd.tool_name.getD "")) = true
  · by_cases h2 : endsWithAny ((hd.params.getD {}).file_path.getD "")
        [".ts", ".component.ts", ".service.ts"] = true
    · by_cases h3 : (resolve_content (hd.tool_name.getD "") (hd.params.getD {})).isEmpty = true
      · have hm : mainWith checker hd = hd := by
          simp only [mainWith]; rw [h3]; simp
        have hio : issues_of checker hd = [] := by
          simp only [issues_of, gates_pass, h3, Bool.not_true, Bool.and_false]
          rfl
        rw [hm, hio]; simp
      · have h3' : (resolve_content (hd.tool_name.getD "") (hd.params.getD {})).isEmpty = false := by
          simpa using h3
        have hgp : gates_pass hd = true := by
          simp only [gates_pass]; rw [h1, h2, h3']; rfl
        have hio : issues_of checker hd =
            collect_issues checker
              (extract_code_patterns
                (resolve_content (hd.tool_name.getD "") (hd.params.getD {}))) := by
          simp only [issues_of]; rw [hgp]; simp
        simp only [mainWith]
        rw [h1, h2, h3', hio]
        rcases hi : collect_issues checker
            (extract_code_patterns
              (resolve_content (hd.tool_name.getD "") (hd.params.getD {}))) with _ | ⟨i, is⟩
        · simp
        · simp
    · have h2' : endsWithAny ((hd.params.getD {}).file_path.getD "")
          [".ts", ".component.ts", ".service.ts"] = false := by simpa using h2
      have hm : mainWith checker hd = hd := by
        simp only [mainWith]; rw [h2']; simp
      have hio : issues_of checker hd = [] := by
        simp only [issues_of, gates_pass, h2', Bool.and_false, Bool.false_and]
        rfl
      rw [hm, hio]; simp
  · have h1' : (["Write", "Edit", "MultiEdit"].contains (hd.tool_name.getD "")) = false := by
      simpa using h1
    have hm : mainWith checker hd = hd := by
      simp only [mainWith]; rw [h1']; simp
    have hio : issues_of checker hd = [] := by
      simp only [issues_of, gates_pass, h1', Bool.false_and]
      rfl
    rw [hm, hio]; simp

/-- C7: for a MultiEdit record the validated content is the `new_string`
field of every sub-edit, in list order, joined with newline separators, a
missing `new_string` contributing the empty string (concretely:
`[some "alpha", absent, some "beta"]` resolves to `"alpha\n\nbeta"`). -/
theorem C7_multiedit_content (params : Params) :
    resolve_content "MultiEdit" params =
      String.intercalate "\n" ((params.edits.getD []).map (fun e => e.new_string.getD "")) ∧
    resolve_content "MultiEdit"
      { edits := some [{ new_string := some "alpha" }, {}, { new_string := some "beta" }] } =
      "alpha\n\nbeta" := by
  exact ⟨rfl, rfl⟩

/-- C9: `extract_code_patterns` is a deterministic pure function: equal
inputs give structurally equal outputs, an absence of matches in all three
scans yields the empty sequence rather than an error, and in particular the
empty content yields the empty sequence. -/
theorem C9_extract_pure_deterministic :
    (∀ c₁ c₂ : String, c₁ = c₂ → extract_code_patterns c₁ = extract_code_patterns c₂) ∧
    (∀ c : String, scanServiceCalls c = [] → scanImports c = [] → scanComponents c = [] →
      extract_code_patterns c = []) ∧
    extract_code_patterns "" = [] := by
  refine ⟨fun c₁ c₂ h => by rw [h], fun c h1 h2 h3 => ?_, rfl⟩
  simp [extract_code_patterns, h1, h2, h3]

/-- C9 witness: pattern-free content extracts to the empty sequence. -/
theorem C9_extract_pure_deterministic_witness :
    extract_code_patterns "const x = 1" = [] :=
  C9_extract_pure_deterministic.2.1 "const x = 1" rfl rfl rfl

/-- C10: the file-suffix gate of `main` is equivalent to the single test
`endswith ".ts"`: the two longer suffixes in the fixed tuple are redundant,
and any path ending in `.ts` passes the gate. -/
theorem C10_suffix_gate_redundant (p : String) :
    endsWithAny p [".ts", ".component.ts", ".service.ts"] = endsWithSuffix p ".ts" := by
  have key : ∀ long : String, ".ts".data <:+ long.data →
      endsWithSuffix p long = true → endsWithSuffix p ".ts" = true := by
    intro long hl h
    rw [endsWithSuffix, List.isSuffixOf_iff_suffix] at h ⊢
    exact hl.trans h
  simp only [endsWithAny, List.any_cons, List.any_nil, Bool.or_false]
  by_cases h1 : endsWithSuffix p ".ts" = true
  · simp [h1]
  · have h1' : endsWithSuffix p ".ts" = false := by simpa using h1
    have h2 : endsWithSuffix p ".component.ts" = false := by
      rcases hc : endsWithSuffix p ".component.ts" with _ | _
      · rfl
      · exact absurd (key ".component.ts" (by decide) hc) h1
    have h3 : endsWithSuffix p ".service.ts" = false := by
      rcases hc : endsWithSuffix p ".service.ts" with _ | _
      · rfl
      · exact absurd (key ".service.ts" (by decide) hc) h1
    simp [h1', h2, h3]

end AntiHall
